import Mathlib

/-!
Verification of the reentrancy-guard vault contract
(`reentrancy-guard-stylus`: `reentrancy.rs` and `lib.rs`).

The contract state is embedded shallowly: U256 values are naturals that the
operations keep below `2 ^ 256` by reducing modulo `2 ^ 256` exactly where the
source's wrapping U256 arithmetic does (alloy/ruint `+` and `-` wrap).  The
`StorageMap<Address, StorageU256>` of balances is an association list with
lookup defaulting to zero, mirroring storage-default semantics.  The external
value transfer performed by the withdrawal operations is a parameter of type
`State → Bool × State`: it reports success or failure and may mutate the state
(e.g. by reentrantly invoking contract entry points) before returning.
-/

namespace Vault

instance {ε α : Type} [DecidableEq ε] [DecidableEq α] :
    DecidableEq (Except ε α) := fun x y =>
  match x, y with
  | .ok a, .ok b => decidable_of_iff (a = b) (by simp)
  | .error a, .error b => decidable_of_iff (a = b) (by simp)
  | .ok _, .error _ => isFalse (by simp)
  | .error _, .ok _ => isFalse (by simp)

/-- `2 ^ 256`, the modulus of U256 arithmetic. -/
def W : Nat := 2 ^ 256

/-- `NOT_ENTERED` constant from `reentrancy.rs` (`U256::from_limbs([1,0,0,0])`). -/
def NOT_ENTERED : Nat := 1

/-- `ENTERED` constant from `reentrancy.rs` (`U256::from_limbs([2,0,0,0])`). -/
def ENTERED : Nat := 2

/-- Wrapping U256 addition (ruint `Add` wraps). -/
def wadd (x y : Nat) : Nat := (x + y) % W

/-- Wrapping U256 subtraction (ruint `Sub` wraps). -/
def wsub (x y : Nat) : Nat := (x + (W - y % W)) % W

/-- Association-list lookup with storage default `0`
(`StorageMap::getter(...).get()`). -/
def lookupBal : List (Nat × Nat) → Nat → Nat
  | [], _ => 0
  | (k, v) :: rest, a => if k = a then v else lookupBal rest a

/-- Association-list update (`StorageMap::setter(...).set(v)`). -/
def setBal : List (Nat × Nat) → Nat → Nat → List (Nat × Nat)
  | [], a, v => [(a, v)]
  | (k, w) :: rest, a, v =>
      if k = a then (a, v) :: rest else (k, w) :: setBal rest a v

/-- Sum of all stored balance entries. -/
def sumBal : List (Nat × Nat) → Nat
  | [] => 0
  | (_, v) :: rest => v + sumBal rest

/-- The full storage of `VaultContract` (lib.rs): the guard's `status` word,
the `balances` map and `total_balance`. -/
structure State where
  guardStatus : Nat
  balances : List (Nat × Nat)
  totalBalance : Nat
deriving DecidableEq

/-- `ReentrancyError` from `reentrancy.rs`. -/
inductive ReentrancyError where
  | ReentrantCall
deriving DecidableEq

/-- `VaultError` from `lib.rs`. -/
inductive VaultError where
  | InsufficientBalance
  | WithdrawalFailed
  | ReentrantCall
deriving DecidableEq

/-- `From<ReentrancyError> for VaultError`. -/
def VaultError.ofReentrancy : ReentrancyError → VaultError
  | .ReentrantCall => .ReentrantCall

/-- `ReentrancyGuard::reentrancy_guard_entered`: `status == ENTERED`. -/
def reentrancy_guard_entered (s : State) : Bool :=
  s.guardStatus = ENTERED

/-- `ReentrancyGuard::non_reentrant_before`: fail with `ReentrantCall` if the
status is `ENTERED` (leaving the state untouched), otherwise set it to
`ENTERED`. -/
def non_reentrant_before (s : State) : Except ReentrancyError Unit × State :=
  if s.guardStatus = ENTERED then (.error .ReentrantCall, s)
  else (.ok (), { s with guardStatus := ENTERED })

/-- `ReentrancyGuard::non_reentrant_after`: reset the status to `NOT_ENTERED`. -/
def non_reentrant_after (s : State) : State :=
  { s with guardStatus := NOT_ENTERED }

/-- The external value-transfer collaborator: given the state at the moment of
the call it returns success/failure and the state after the call (a reentrant
callee may have invoked entry points of the contract). -/
def Transfer := State → Bool × State

/-- The all-zero storage a Stylus contract starts from before its constructor
runs (`VaultContract::default()`). -/
def defaultState : State :=
  { guardStatus := 0, balances := [], totalBalance := 0 }

/-- `VaultContract::constructor`: `guard.init()` then `total_balance.set(0)`. -/
def constructor (s : State) : State :=
  { s with guardStatus := NOT_ENTERED, totalBalance := 0 }

/-- The constructed initial state. -/
def initState : State := constructor defaultState

/-- `VaultContract::deposit` with `caller = msg::sender()` and
`amount = msg::value()`: under `with_non_reentrant`, add `amount` to the
caller's balance and to `total_balance` (wrapping U256 additions). -/
def deposit (caller amount : Nat) (s : State) :
    Except VaultError Unit × State :=
  match non_reentrant_before s with
  | (.error e, s0) => (.error (VaultError.ofReentrancy e), s0)
  | (.ok _, s1) =>
      let current_balance := lookupBal s1.balances caller
      let new_balance := wadd current_balance amount
      let s2 : State :=
        { s1 with balances := setBal s1.balances caller new_balance,
                  totalBalance := wadd s1.totalBalance amount }
      (.ok (), non_reentrant_after s2)

/-- `VaultContract::withdraw_safe`: under `with_non_reentrant`, check the
balance, decrement balance and total before the external call, roll both back
and return `WithdrawalFailed` if the call fails. -/
def withdraw_safe (caller amount : Nat) (transfer : Transfer) (s : State) :
    Except VaultError Unit × State :=
  match non_reentrant_before s with
  | (.error e, s0) => (.error (VaultError.ofReentrancy e), s0)
  | (.ok _, s1) =>
      let balance := lookupBal s1.balances caller
      if balance < amount then
        (.error .InsufficientBalance, non_reentrant_after s1)
      else
        let s2 : State :=
          { s1 with balances := setBal s1.balances caller (wsub balance amount),
                    totalBalance := wsub s1.totalBalance amount }
        match transfer s2 with
        | (true, s3) => (.ok (), non_reentrant_after s3)
        | (false, s3) =>
            let s4 : State :=
              { s3 with balances := setBal s3.balances caller balance,
                        totalBalance := wadd s3.totalBalance amount }
            (.error .WithdrawalFailed, non_reentrant_after s4)

/-- `VaultContract::emergency_withdraw`: the manual acquire/release variant.
The guard is released immediately after the external call, before the
rollback on the failure path. -/
def emergency_withdraw (caller amount : Nat) (transfer : Transfer) (s : State) :
    Except VaultError Unit × State :=
  match non_reentrant_before s with
  | (.error e, s0) => (.error (VaultError.ofReentrancy e), s0)
  | (.ok _, s1) =>
      let balance := lookupBal s1.balances caller
      if balance < amount then
        (.error .InsufficientBalance, non_reentrant_after s1)
      else
        let s2 : State :=
          { s1 with balances := setBal s1.balances caller (wsub balance amount),
                    totalBalance := wsub s1.totalBalance amount }
        match transfer s2 with
        | (ok, s3) =>
            let s3r := non_reentrant_after s3
            if ok then (.ok (), s3r)
            else
              (.error .WithdrawalFailed,
                { s3r with balances := setBal s3r.balances caller balance,
                           totalBalance := wadd s3r.totalBalance amount })

/-- A transfer that succeeds without touching the state. -/
def okTransfer : Transfer := fun s => (true, s)

/-- A transfer that fails; as the execution environment reverts a failed
callee's effects, it returns the state unchanged. -/
def failTransfer : Transfer := fun s => (false, s)

/-- A transfer collaborator stubbed to reentrantly invoke
`withdraw_safe caller amount` on the contract before reporting success. -/
def reentrantStub (caller amount : Nat) : Transfer :=
  fun s => (true, (withdraw_safe caller amount okTransfer s).2)

/-- A top-level vault operation together with the outcome of its external
transfer; the transfer of a reentry-free sequence does not touch the state. -/
inductive Op where
  | deposit (caller amount : Nat)
  | withdrawSafe (caller amount : Nat) (outcome : Bool)
  | emergencyWithdraw (caller amount : Nat) (outcome : Bool)

/-- Run one reentry-free operation, keeping the post-state. -/
def runOp (s : State) : Op → State
  | .deposit c a => (deposit c a s).2
  | .withdrawSafe c a b => (withdraw_safe c a (fun t => (b, t)) s).2
  | .emergencyWithdraw c a b => (emergency_withdraw c a (fun t => (b, t)) s).2

/-- Run a reentry-free sequence of operations from a state. -/
def runOps (s : State) (ops : List Op) : State := ops.foldl runOp s

/-- Total amount deposited by a sequence of operations. -/
def depositSum : List Op → Nat
  | [] => 0
  | .deposit _ a :: rest => a + depositSum rest
  | .withdrawSafe _ _ _ :: rest => depositSum rest
  | .emergencyWithdraw _ _ _ :: rest => depositSum rest

/-- The storage invariant: stored words are U256-sized and the stored total
is the U256 (mod `2 ^ 256`) sum of the stored balances. -/
def Inv (s : State) : Prop :=
  s.totalBalance < W ∧ (∀ p ∈ s.balances, p.2 < W) ∧
    s.totalBalance = sumBal s.balances % W

lemma W_pos : 0 < W := Nat.pos_pow_of_pos 256 (by norm_num)

lemma wadd_lt (x y : Nat) : wadd x y < W := Nat.mod_lt _ W_pos

lemma wsub_lt (x y : Nat) : wsub x y < W := Nat.mod_lt _ W_pos

lemma wadd_exact {x y : Nat} (h : x + y < W) : wadd x y = x + y :=
  Nat.mod_eq_of_lt h

lemma wsub_exact {x y : Nat} (hx : x < W) (hyx : y ≤ x) : wsub x y = x - y := by
  unfold wsub
  rw [Nat.mod_eq_of_lt (lt_of_le_of_lt hyx hx)]
  have h1 : x + (W - y) = (x - y) + W := by omega
  rw [h1, Nat.add_mod_right, Nat.mod_eq_of_lt (by omega)]

lemma wadd_wsub_cancel {x y : Nat} (hx : x < W) (hy : y < W) :
    wadd (wsub x y) y = x := by
  unfold wadd wsub
  rw [Nat.mod_eq_of_lt hy, Nat.mod_add_mod]
  have h1 : x + (W - y) + y = x + W := by omega
  rw [h1, Nat.add_mod_right, Nat.mod_eq_of_lt hx]

lemma lookupBal_setBal_self (m : List (Nat × Nat)) (a v : Nat) :
    lookupBal (setBal m a v) a = v := by
  induction m with
  | nil => simp [setBal, lookupBal]
  | cons p rest ih =>
      obtain ⟨k, w⟩ := p
      by_cases h : k = a <;> simp [setBal, lookupBal, h, ih]

lemma lookupBal_setBal_ne (m : List (Nat × Nat)) {a b : Nat} (v : Nat)
    (h : a ≠ b) : lookupBal (setBal m a v) b = lookupBal m b := by
  induction m with
  | nil => simp [setBal, lookupBal, h]
  | cons p rest ih =>
      obtain ⟨k, w⟩ := p
      by_cases hk : k = a
      · subst hk
        simp [setBal, lookupBal, h]
      · simp [setBal, lookupBal, hk, ih]

lemma sumBal_setBal (m : List (Nat × Nat)) (a v : Nat) :
    sumBal (setBal m a v) + lookupBal m a = sumBal m + v := by
  induction m with
  | nil => simp [setBal, lookupBal, sumBal]
  | cons p rest ih =>
      obtain ⟨k, w⟩ := p
      by_cases h : k = a
      · subst h
        simp [setBal, lookupBal, sumBal]
        omega
      · simp [setBal, lookupBal, sumBal, h]
        omega

lemma lookupBal_le_sumBal (m : List (Nat × Nat)) (a : Nat) :
    lookupBal m a ≤ sumBal m := by
  induction m with
  | nil => simp [lookupBal, sumBal]
  | cons p rest ih =>
      obtain ⟨k, w⟩ := p
      by_cases h : k = a
      · simp [lookupBal, sumBal, h]
      · simp [lookupBal, sumBal, h]
        omega

lemma lookupBal_lt_W {m : List (Nat × Nat)} (hm : ∀ p ∈ m, p.2 < W)
    (a : Nat) : lookupBal m a < W := by
  induction m with
  | nil => simpa [lookupBal] using W_pos
  | cons p rest ih =>
      obtain ⟨k, w⟩ := p
      by_cases h : k = a
      · simpa [lookupBal, h] using hm (k, w) (by simp)
      · simp only [lookupBal, h, if_neg]
        exact ih fun q hq => hm q (List.mem_cons_of_mem _ hq)

lemma setBal_entries_lt {m : List (Nat × Nat)} (hm : ∀ p ∈ m, p.2 < W)
    {a v : Nat} (hv : v < W) : ∀ p ∈ setBal m a v, p.2 < W := by
  induction m with
  | nil => simpa [setBal] using hv
  | cons q rest ih =>
      obtain ⟨k, w⟩ := q
      by_cases h : k = a
      · subst h
        intro p hp
        rcases (by simpa [setBal] using hp : p = (k, v) ∨ p ∈ rest) with h1 | h1
        · simpa [h1] using hv
        · exact hm p (List.mem_cons_of_mem _ h1)
      · intro p hp
        rcases (by simpa [setBal, h] using hp :
            p = (k, w) ∨ p ∈ setBal rest a v) with h1 | h1
        · exact h1 ▸ hm (k, w) (by simp)
        · exact ih (fun q hq => hm q (List.mem_cons_of_mem _ hq)) p h1

lemma withdraw_variants_eq (c a : Nat) (t : Transfer) (s : State) :
    emergency_withdraw c a t s = withdraw_safe c a t s := by
  unfold emergency_withdraw withdraw_safe non_reentrant_before
  by_cases hg : s.guardStatus = ENTERED
  · simp [hg]
  · simp only [hg, if_false]
    by_cases hb : lookupBal s.balances c < a
    · simp [hb]
    · simp only [hb, if_false]
      split
      · split
        · simp_all
        · simp_all [non_reentrant_after]
      · split
        · simp_all
        · simp_all [non_reentrant_after]

/-- Claim C5: calling `non_reentrant_before` twice without an intervening
release succeeds the first time (setting the status to `ENTERED`), and the
second call fails with `ReentrantCall` while leaving the state — still
`ENTERED` — unchanged. -/
theorem claim5 (s : State) (h : s.guardStatus ≠ ENTERED) :
    non_reentrant_before s = (.ok (), { s with guardStatus := ENTERED }) ∧
    non_reentrant_before { s with guardStatus := ENTERED } =
      (.error .ReentrantCall, { s with guardStatus := ENTERED }) ∧
    (non_reentrant_before { s with guardStatus := ENTERED }).2.guardStatus =
      ENTERED := by
  refine ⟨?_, ?_, ?_⟩ <;> simp [non_reentrant_before, h]

/-- Witness for C5 at the freshly constructed state. -/
theorem claim5_witness :
    non_reentrant_before initState =
      (.ok (), { initState with guardStatus := ENTERED }) ∧
    non_reentrant_before { initState with guardStatus := ENTERED } =
      (.error .ReentrantCall, { initState with guardStatus := ENTERED }) ∧
    (non_reentrant_before
      { initState with guardStatus := ENTERED }).2.guardStatus = ENTERED :=
  claim5 initState (by decide)

/-- Claim C9: on a guard whose storage word is still the default `0` (no
`init`), `reentrancy_guard_entered` is `false` and `non_reentrant_before`
succeeds exactly as from `NOT_ENTERED`, although `0` differs from both
`NOT_ENTERED = 1` and `ENTERED = 2`: use-before-init is not diagnosed. -/
theorem claim9 :
    reentrancy_guard_entered defaultState = false ∧
    non_reentrant_before defaultState =
      (.ok (), { defaultState with guardStatus := ENTERED }) ∧
    defaultState.guardStatus ≠ NOT_ENTERED ∧
    defaultState.guardStatus ≠ ENTERED :=
  ⟨rfl, rfl, by decide, by decide⟩

/-- Claim C7: for every starting state, caller, amount and external-transfer
collaborator, the manual acquire/release variant `emergency_withdraw` returns
the same result and final state as the scoped variant `withdraw_safe`. -/
theorem claim7 (s : State) (c a : Nat) (t : Transfer) :
    emergency_withdraw c a t s = withdraw_safe c a t s :=
  withdraw_variants_eq c a t s

/-- The state at the moment the external call of a withdrawal is issued:
guard `ENTERED`, caller balance and total already decremented. -/
def midState (s : State) (c a : Nat) : State :=
  { guardStatus := ENTERED,
    balances := setBal s.balances c (wsub (lookupBal s.balances c) a),
    totalBalance := wsub s.totalBalance a }

lemma deposit_entered {s : State} (c a : Nat) (hg : s.guardStatus = ENTERED) :
    deposit c a s = (.error .ReentrantCall, s) := by
  simp [deposit, non_reentrant_before, hg, VaultError.ofReentrancy]

lemma deposit_ok {s : State} (c a : Nat) (hg : ¬ s.guardStatus = ENTERED) :
    deposit c a s =
      (.ok (), { guardStatus := NOT_ENTERED,
                 balances := setBal s.balances c
                   (wadd (lookupBal s.balances c) a),
                 totalBalance := wadd s.totalBalance a }) := by
  simp [deposit, non_reentrant_before, hg, non_reentrant_after]

lemma withdraw_safe_entered {s : State} (c a : Nat) (t : Transfer)
    (hg : s.guardStatus = ENTERED) :
    withdraw_safe c a t s = (.error .ReentrantCall, s) := by
  simp [withdraw_safe, non_reentrant_before, hg, VaultError.ofReentrancy]

lemma withdraw_safe_insufficient {s : State} (c a : Nat) (t : Transfer)
    (hg : ¬ s.guardStatus = ENTERED) (hb : lookupBal s.balances c < a) :
    withdraw_safe c a t s =
      (.error .InsufficientBalance, { s with guardStatus := NOT_ENTERED }) := by
  simp [withdraw_safe, non_reentrant_before, hg, hb, non_reentrant_after]

lemma withdraw_safe_transfer {s : State} (c a : Nat) (t : Transfer)
    (hg : ¬ s.guardStatus = ENTERED) (hb : ¬ lookupBal s.balances c < a) :
    withdraw_safe c a t s =
      match t (midState s c a) with
      | (true, s3) => (.ok (), non_reentrant_after s3)
      | (false, s3) =>
          (.error .WithdrawalFailed,
            non_reentrant_after
              { s3 with balances := setBal s3.balances c
                          (lookupBal s.balances c),
                        totalBalance := wadd s3.totalBalance a }) := by
  simp [withdraw_safe, non_reentrant_before, hg, hb, midState]

/-- Claim C2: whenever `deposit`, `withdraw_safe` or `emergency_withdraw`
returns anything other than `ReentrantCall` — success, `InsufficientBalance`
or `WithdrawalFailed` — the final guard status is `NOT_ENTERED`: every exit
path, including the insufficient-balance early return, releases the guard. -/
theorem claim2 (s : State) (c a : Nat) (t : Transfer) :
    ((deposit c a s).1 ≠ .error .ReentrantCall →
      (deposit c a s).2.guardStatus = NOT_ENTERED) ∧
    ((withdraw_safe c a t s).1 ≠ .error .ReentrantCall →
      (withdraw_safe c a t s).2.guardStatus = NOT_ENTERED) ∧
    ((emergency_withdraw c a t s).1 ≠ .error .ReentrantCall →
      (emergency_withdraw c a t s).2.guardStatus = NOT_ENTERED) := by
  have hws : (withdraw_safe c a t s).1 ≠ .error .ReentrantCall →
      (withdraw_safe c a t s).2.guardStatus = NOT_ENTERED := by
    intro h
    by_cases hg : s.guardStatus = ENTERED
    · exact absurd (by rw [withdraw_safe_entered c a t hg]) h
    · by_cases hb : lookupBal s.balances c < a
      · rw [withdraw_safe_insufficient c a t hg hb]
      · rw [withdraw_safe_transfer c a t hg hb]
        rcases htr : t (midState s c a) with ⟨ok, s3⟩
        cases ok <;> simp [non_reentrant_after]
  refine ⟨?_, hws, ?_⟩
  · intro h
    by_cases hg : s.guardStatus = ENTERED
    · exact absurd (by rw [deposit_entered c a hg]) h
    · rw [deposit_ok c a hg]
  · rw [withdraw_variants_eq]
    exact hws

/-- Witness for C2: at the constructed initial state a deposit, a withdrawal
and an emergency withdrawal all leave the guard `NOT_ENTERED`. -/
theorem claim2_witness :
    (deposit 1 5 initState).2.guardStatus = NOT_ENTERED ∧
    (withdraw_safe 1 5 okTransfer initState).2.guardStatus = NOT_ENTERED ∧
    (emergency_withdraw 1 5 okTransfer initState).2.guardStatus =
      NOT_ENTERED :=
  ⟨(claim2 initState 1 5 okTransfer).1 (by decide),
   (claim2 initState 1 5 okTransfer).2.1 (by decide),
   (claim2 initState 1 5 okTransfer).2.2 (by decide)⟩

/-- Claim C6: when the requested amount strictly exceeds the caller's balance
(and the call is not itself reentrant), `withdraw_safe` returns
`InsufficientBalance`, the balance map and the total are unchanged, and the
result does not depend on the external-transfer collaborator at all — no
external call is made on this path. -/
theorem claim6 (s : State) (c a : Nat) (t : Transfer)
    (hg : s.guardStatus ≠ ENTERED) (hb : lookupBal s.balances c < a) :
    (withdraw_safe c a t s).1 = .error .InsufficientBalance ∧
    (withdraw_safe c a t s).2.balances = s.balances ∧
    (withdraw_safe c a t s).2.totalBalance = s.totalBalance ∧
    (∀ t2 : Transfer, withdraw_safe c a t2 s = withdraw_safe c a t s) := by
  refine ⟨?_, ?_, ?_, ?_⟩
  · rw [withdraw_safe_insufficient c a t hg hb]
  · rw [withdraw_safe_insufficient c a t hg hb]
  · rw [withdraw_safe_insufficient c a t hg hb]
  · intro t2
    rw [withdraw_safe_insufficient c a t hg hb,
      withdraw_safe_insufficient c a t2 hg hb]

/-- Witness for C6: withdrawing 1 from the empty vault is rejected. -/
theorem claim6_witness :
    (withdraw_safe 1 1 okTransfer initState).1 =
      .error .InsufficientBalance :=
  (claim6 initState 1 1 okTransfer (by decide) (by decide)).1

/-- Claim C3: if the external transfer inside `withdraw_safe` fails (reported
failure, callee effects reverted), the call returns `WithdrawalFailed`, every
account balance and the total are exactly their pre-call values (the
decrements are rolled back), and the guard is `NOT_ENTERED` afterward. -/
theorem claim3 (s : State) (c a : Nat) (hg : s.guardStatus ≠ ENTERED)
    (ha : a ≤ lookupBal s.balances c) (haW : a < W)
    (htot : s.totalBalance < W) :
    (withdraw_safe c a failTransfer s).1 = .error .WithdrawalFailed ∧
    (∀ x, lookupBal (withdraw_safe c a failTransfer s).2.balances x =
      lookupBal s.balances x) ∧
    (withdraw_safe c a failTransfer s).2.totalBalance = s.totalBalance ∧
    (withdraw_safe c a failTransfer s).2.guardStatus = NOT_ENTERED := by
  rw [withdraw_safe_transfer c a failTransfer hg (not_lt.mpr ha)]
  refine ⟨rfl, ?_, ?_, rfl⟩
  · intro x
    by_cases hx : c = x
    · subst hx
      simp [failTransfer, non_reentrant_after, midState, lookupBal_setBal_self]
    · simp [failTransfer, non_reentrant_after, midState,
        lookupBal_setBal_ne _ _ hx]
  · simp [failTransfer, non_reentrant_after, midState,
      wadd_wsub_cancel htot haW]

/-- Witness for C3: a failing transfer of 50 out of a balance of 100 rolls
back to the pre-call total. -/
theorem claim3_witness :
    (withdraw_safe 7 50 failTransfer (deposit 7 100 initState).2).1 =
      .error .WithdrawalFailed :=
  (claim3 (deposit 7 100 initState).2 7 50 (by decide) (by decide)
    (by decide) (by decide)).1

/-- Claim C1: from the constructed state, account `1` deposits 100 and calls
`withdraw_safe 1 100` with the transfer stubbed to reentrantly invoke
`withdraw_safe 1 100` itself.  Any such inner invocation — made while the
guard is `ENTERED` — fails with `ReentrantCall` and mutates nothing; the
outer invocation completes normally and the final balance of account `1`
is 0, with the guard released. -/
theorem claim1 :
    (∀ s : State, s.guardStatus = ENTERED →
      withdraw_safe 1 100 okTransfer s = (.error .ReentrantCall, s)) ∧
    (withdraw_safe 1 100 (reentrantStub 1 100)
      (deposit 1 100 initState).2).1 = .ok () ∧
    lookupBal (withdraw_safe 1 100 (reentrantStub 1 100)
      (deposit 1 100 initState).2).2.balances 1 = 0 ∧
    (withdraw_safe 1 100 (reentrantStub 1 100)
      (deposit 1 100 initState).2).2.guardStatus = NOT_ENTERED := by
  refine ⟨fun s h => withdraw_safe_entered 1 100 okTransfer h, ?_, ?_, ?_⟩ <;>
    decide

/-- Witness for C1: the reentrant inner call at a concrete `ENTERED` state. -/
theorem claim1_witness :
    withdraw_safe 1 100 okTransfer
        { guardStatus := ENTERED, balances := [(1, 100)],
          totalBalance := 100 } =
      (.error .ReentrantCall,
        { guardStatus := ENTERED, balances := [(1, 100)],
          totalBalance := 100 }) :=
  claim1.1 _ rfl

lemma inv_initState : Inv initState := by
  refine ⟨W_pos, ?_, ?_⟩ <;> simp [initState, constructor, defaultState, sumBal]

lemma inv_deposit {s : State} (c a : Nat) (h : Inv s) :
    Inv (deposit c a s).2 := by
  by_cases hg : s.guardStatus = ENTERED
  · rw [deposit_entered c a hg]
    exact h
  · rw [deposit_ok c a hg]
    obtain ⟨h1, h2, h3⟩ := h
    refine ⟨wadd_lt _ _, setBal_entries_lt h2 (wadd_lt _ _), ?_⟩
    have hsum := sumBal_setBal s.balances c (wadd (lookupBal s.balances c) a)
    have hmod : sumBal (setBal s.balances c
          (wadd (lookupBal s.balances c) a)) ≡
        sumBal s.balances + a [MOD W] := by
      have hstep : sumBal (setBal s.balances c
            (wadd (lookupBal s.balances c) a)) + lookupBal s.balances c ≡
          (sumBal s.balances + a) + lookupBal s.balances c [MOD W] := by
        rw [hsum]
        calc sumBal s.balances + wadd (lookupBal s.balances c) a
            ≡ sumBal s.balances + (lookupBal s.balances c + a) [MOD W] :=
              Nat.ModEq.add_left _ (Nat.mod_modEq _ _)
          _ = (sumBal s.balances + a) + lookupBal s.balances c := by omega
      exact Nat.ModEq.add_right_cancel' _ hstep
    show wadd s.totalBalance a = _
    unfold wadd
    rw [h3, Nat.mod_add_mod]
    exact hmod.symm

lemma inv_withdraw_safe {s : State} (c a : Nat) (b : Bool) (h : Inv s) :
    Inv (withdraw_safe c a (fun t => (b, t)) s).2 := by
  by_cases hg : s.guardStatus = ENTERED
  · rw [withdraw_safe_entered c a _ hg]
    exact h
  · by_cases hlt : lookupBal s.balances c < a
    · rw [withdraw_safe_insufficient c a _ hg hlt]
      exact h
    · rw [withdraw_safe_transfer c a _ hg hlt]
      obtain ⟨h1, h2, h3⟩ := h
      have ha : a ≤ lookupBal s.balances c := not_lt.mp hlt
      have hbW : lookupBal s.balances c < W := lookupBal_lt_W h2 c
      have haW : a < W := lt_of_le_of_lt ha hbW
      have haS : a ≤ sumBal s.balances := ha.trans (lookupBal_le_sumBal _ c)
      cases b
      · -- failed transfer: rollback restores balance and total
        simp only [non_reentrant_after, midState]
        have hsum1 := sumBal_setBal s.balances c
          (wsub (lookupBal s.balances c) a)
        have hsum2 := sumBal_setBal
          (setBal s.balances c (wsub (lookupBal s.balances c) a)) c
          (lookupBal s.balances c)
        rw [lookupBal_setBal_self] at hsum2
        refine ⟨?_, ?_, ?_⟩
        · rw [wadd_wsub_cancel h1 haW]
          exact h1
        · exact setBal_entries_lt
            (setBal_entries_lt h2 (wsub_lt _ _)) hbW
        · show wadd (wsub s.totalBalance a) a =
            sumBal (setBal (setBal s.balances c
              (wsub (lookupBal s.balances c) a)) c
              (lookupBal s.balances c)) % W
          rw [wadd_wsub_cancel h1 haW, h3]
          congr 1
          omega
      · -- successful transfer: balance and total both decremented by a
        simp only [non_reentrant_after, midState]
        have hsum1 := sumBal_setBal s.balances c
          (wsub (lookupBal s.balances c) a)
        rw [wsub_exact hbW ha] at hsum1
        have hS : sumBal (setBal s.balances c
            (lookupBal s.balances c - a)) = sumBal s.balances - a := by
          omega
        refine ⟨wsub_lt _ _, setBal_entries_lt h2 (wsub_lt _ _), ?_⟩
        rw [wsub_exact hbW ha, hS]
        unfold wsub
        rw [h3, Nat.mod_eq_of_lt haW, Nat.mod_add_mod]
        have hrw : sumBal s.balances + (W - a) =
            (sumBal s.balances - a) + W := by omega
        rw [hrw, Nat.add_mod_right]

lemma inv_emergency_withdraw {s : State} (c a : Nat) (b : Bool) (h : Inv s) :
    Inv (emergency_withdraw c a (fun t => (b, t)) s).2 := by
  rw [withdraw_variants_eq]
  exact inv_withdraw_safe c a b h

lemma inv_runOp {s : State} (op : Op) (h : Inv s) : Inv (runOp s op) := by
  cases op with
  | deposit c a => exact inv_deposit c a h
  | withdrawSafe c a b => exact inv_withdraw_safe c a b h
  | emergencyWithdraw c a b => exact inv_emergency_withdraw c a b h

lemma inv_runOps {s : State} (ops : List Op) (h : Inv s) :
    Inv (runOps s ops) := by
  induction ops generalizing s with
  | nil => exact h
  | cons op rest ih => exact ih (inv_runOp op h)

/-- Claim C4: after every reentry-free sequence of `deposit`, `withdraw_safe`
and `emergency_withdraw` operations from the constructed initial state — and
hence after each operation of any such sequence — the stored `total_balance`
equals the U256 sum (the sum modulo `2 ^ 256`) of all stored account
balances. -/
theorem claim4 (ops : List Op) :
    (runOps initState ops).totalBalance =
      sumBal (runOps initState ops).balances % W :=
  (inv_runOps ops inv_initState).2.2

lemma exact_step_deposit {s : State} (c a : Nat)
    (hx : s.totalBalance = sumBal s.balances)
    (hb : sumBal s.balances + a < W) :
    (deposit c a s).2.totalBalance = sumBal (deposit c a s).2.balances ∧
    sumBal (deposit c a s).2.balances ≤ sumBal s.balances + a := by
  by_cases hg : s.guardStatus = ENTERED
  · rw [deposit_entered c a hg]
    exact ⟨hx, Nat.le_add_right _ _⟩
  · rw [deposit_ok c a hg]
    dsimp only
    have hsum := sumBal_setBal s.balances c (wadd (lookupBal s.balances c) a)
    have hble : lookupBal s.balances c ≤ sumBal s.balances :=
      lookupBal_le_sumBal _ c
    have hw : wadd (lookupBal s.balances c) a =
        lookupBal s.balances c + a := wadd_exact (by omega)
    rw [hw] at hsum
    have hS : sumBal (setBal s.balances c (lookupBal s.balances c + a)) =
        sumBal s.balances + a := by omega
    rw [hw, hS]
    exact ⟨by rw [hx, wadd_exact hb], le_refl _⟩

lemma exact_step_withdraw {s : State} (c a : Nat) (b : Bool) (h : Inv s)
    (hx : s.totalBalance = sumBal s.balances)
    (hb : sumBal s.balances < W) :
    (withdraw_safe c a (fun t => (b, t)) s).2.totalBalance =
      sumBal (withdraw_safe c a (fun t => (b, t)) s).2.balances ∧
    sumBal (withdraw_safe c a (fun t => (b, t)) s).2.balances ≤
      sumBal s.balances := by
  by_cases hg : s.guardStatus = ENTERED
  · rw [withdraw_safe_entered c a _ hg]
    exact ⟨hx, le_refl _⟩
  · by_cases hlt : lookupBal s.balances c < a
    · rw [withdraw_safe_insufficient c a _ hg hlt]
      exact ⟨hx, le_refl _⟩
    · rw [withdraw_safe_transfer c a _ hg hlt]
      obtain ⟨h1, h2, h3⟩ := h
      have ha : a ≤ lookupBal s.balances c := not_lt.mp hlt
      have hbW : lookupBal s.balances c < W := lookupBal_lt_W h2 c
      have haW : a < W := lt_of_le_of_lt ha hbW
      have hble : lookupBal s.balances c ≤ sumBal s.balances :=
        lookupBal_le_sumBal _ c
      have hsum1 := sumBal_setBal s.balances c
        (wsub (lookupBal s.balances c) a)
      rw [wsub_exact hbW ha] at hsum1
      cases b
      · -- failed transfer: rollback restores the sum and the total
        simp only [non_reentrant_after, midState]
        have hsum2 := sumBal_setBal
          (setBal s.balances c (wsub (lookupBal s.balances c) a)) c
          (lookupBal s.balances c)
        rw [lookupBal_setBal_self, wsub_exact hbW ha] at hsum2
        have hS : sumBal (setBal (setBal s.balances c
            (wsub (lookupBal s.balances c) a)) c
            (lookupBal s.balances c)) = sumBal s.balances := by
          rw [wsub_exact hbW ha]
          omega
        constructor
        · show wadd (wsub s.totalBalance a) a = _
          rw [wadd_wsub_cancel (hx ▸ hb) haW, hS, hx]
        · exact le_of_eq hS
      · -- successful transfer: sum and total both drop by a
        simp only [non_reentrant_after, midState]
        have hS : sumBal (setBal s.balances c
            (wsub (lookupBal s.balances c) a)) =
            sumBal s.balances - a := by
          rw [wsub_exact hbW ha]
          omega
        constructor
        · show wsub s.totalBalance a = _
          rw [hS, hx, wsub_exact hb (ha.trans hble)]
        · rw [hS]
          omega

lemma exact_runOps (ops : List Op) {s : State} (h : Inv s)
    (hx : s.totalBalance = sumBal s.balances)
    (hb : sumBal s.balances + depositSum ops < W) :
    (runOps s ops).totalBalance = sumBal (runOps s ops).balances ∧
    sumBal (runOps s ops).balances ≤ sumBal s.balances + depositSum ops := by
  induction ops generalizing s with
  | nil => exact ⟨hx, Nat.le_add_right _ _⟩
  | cons op rest ih =>
      have hnext : (runOp s op).totalBalance = sumBal (runOp s op).balances ∧
          sumBal (runOp s op).balances ≤
            sumBal s.balances + depositSum [op] := by
        cases op with
        | deposit c a =>
            exact exact_step_deposit c a hx
              (by simp only [depositSum] at hb ⊢; omega)
        | withdrawSafe c a b =>
            have := exact_step_withdraw c a b h hx
              (by simp only [depositSum] at hb; omega)
            exact ⟨this.1, by simpa [depositSum] using this.2⟩
        | emergencyWithdraw c a b =>
            have heq : runOp s (.emergencyWithdraw c a b) =
                runOp s (.withdrawSafe c a b) := by
              simp only [runOp, withdraw_variants_eq]
            rw [heq]
            have := exact_step_withdraw c a b h hx
              (by simp only [depositSum] at hb; omega)
            exact ⟨this.1, by simpa [depositSum] using this.2⟩
      have hrest := ih (inv_runOp op h) hnext.1 (by
        have hd : depositSum (op :: rest) =
            depositSum [op] + depositSum rest := by
          cases op <;> simp [depositSum]
        rw [hd] at hb
        omega)
      have hfold : runOps s (op :: rest) = runOps (runOp s op) rest := rfl
      rw [hfold]
      refine ⟨hrest.1, ?_⟩
      have hd : depositSum (op :: rest) =
          depositSum [op] + depositSum rest := by
        cases op <;> simp [depositSum]
      rw [hd]
      omega

/-- Counterexample to C10 as stated: a reachable state (two deposits, the
first of `2 ^ 256 - 1`) in which `TotalBalance < AccountBalance[caller]`, so
that the unchecked `total_balance - amount` subtraction of a withdrawal that
passes the balance check does underflow — the withdrawal succeeds and leaves
the wrapped total `2 ^ 256 - 1`. -/
theorem claim10_counterexample :
    2 ≤ lookupBal (runOps initState
      [Op.deposit 1 (W - 1), Op.deposit 2 2]).balances 2 ∧
    (runOps initState
      [Op.deposit 1 (W - 1), Op.deposit 2 2]).totalBalance < 2 ∧
    (emergency_withdraw 2 2 okTransfer (runOps initState
      [Op.deposit 1 (W - 1), Op.deposit 2 2])).1 = .ok () ∧
    (emergency_withdraw 2 2 okTransfer (runOps initState
      [Op.deposit 1 (W - 1), Op.deposit 2 2])).2.totalBalance = W - 1 := by
  refine ⟨?_, ?_, ?_, ?_⟩ <;> decide

/-- Claim C10, amended: over every reentry-free sequence whose total
deposited amount stays below `2 ^ 256` (so no deposit addition wraps), every
reachable state satisfies `TotalBalance = Σ AccountBalance` exactly; hence
any withdrawal amount that passes the `balance >= amount` check also
satisfies `amount ≤ TotalBalance`, and the unchecked wrapping subtraction
`total_balance - amount` computes the exact difference — it cannot
underflow. -/
theorem claim10 (ops : List Op) (hdep : depositSum ops < W) :
    (runOps initState ops).totalBalance =
      sumBal (runOps initState ops).balances ∧
    ∀ c a, a ≤ lookupBal (runOps initState ops).balances c →
      a ≤ (runOps initState ops).totalBalance ∧
      wsub (runOps initState ops).totalBalance a =
        (runOps initState ops).totalBalance - a := by
  have h0 : sumBal initState.balances + depositSum ops < W := by
    simpa [initState, constructor, defaultState, sumBal] using hdep
  obtain ⟨he, hle⟩ := exact_runOps ops inv_initState rfl h0
  refine ⟨he, fun c a hca => ?_⟩
  have h1 : a ≤ (runOps initState ops).totalBalance := by
    rw [he]
    exact hca.trans (lookupBal_le_sumBal _ c)
  have h2 : (runOps initState ops).totalBalance < W := by
    rw [he]
    have : sumBal initState.balances = 0 := rfl
    omega
  exact ⟨h1, wsub_exact h2 h1⟩

/-- Witness for the amended C10 on a small overflow-free trace. -/
theorem claim10_witness :
    (runOps initState
      [Op.deposit 1 100, Op.withdrawSafe 1 30 true]).totalBalance =
      sumBal (runOps initState
        [Op.deposit 1 100, Op.withdrawSafe 1 30 true]).balances ∧
    30 ≤ (runOps initState
      [Op.deposit 1 100, Op.withdrawSafe 1 30 true]).totalBalance :=
  ⟨(claim10 [Op.deposit 1 100, Op.withdrawSafe 1 30 true] (by decide)).1,
   ((claim10 [Op.deposit 1 100, Op.withdrawSafe 1 30 true] (by decide)).2
      1 30 (by decide)).1⟩

/-- Counterexample to C8 as stated: at the reachable state holding balance
`2 ^ 256 - 1` for account `1`, a further deposit of 1 succeeds — the
addition silently wraps the balance and the total to 0 instead of surfacing
an error. -/
theorem claim8_counterexample :
    (deposit 1 1 (runOps initState [Op.deposit 1 (W - 1)])).1 = .ok () ∧
    lookupBal (deposit 1 1
      (runOps initState [Op.deposit 1 (W - 1)])).2.balances 1 = 0 ∧
    (deposit 1 1
      (runOps initState [Op.deposit 1 (W - 1)])).2.totalBalance = 0 := by
  refine ⟨?_, ?_, ?_⟩ <;> decide

/-- Claim C8, amended: balances never go negative — the withdrawal
operations reject any amount exceeding the account balance with
`InsufficientBalance`, leaving the balance map unchanged — but the additions
in `deposit` are unchecked wrapping U256 additions: they always succeed and
reduce the new balance modulo `2 ^ 256` instead of surfacing an overflow
error. -/
theorem claim8 (s : State) (c a : Nat) (t : Transfer)
    (hg : s.guardStatus ≠ ENTERED) :
    ((deposit c a s).1 = .ok () ∧
      lookupBal (deposit c a s).2.balances c =
        (lookupBal s.balances c + a) % W) ∧
    (lookupBal s.balances c < a →
      (withdraw_safe c a t s).1 = .error .InsufficientBalance ∧
      (withdraw_safe c a t s).2.balances = s.balances ∧
      (emergency_withdraw c a t s).1 = .error .InsufficientBalance ∧
      (emergency_withdraw c a t s).2.balances = s.balances) := by
  constructor
  · rw [deposit_ok c a hg]
    exact ⟨rfl, by rw [lookupBal_setBal_self]; rfl⟩
  · intro hlt
    rw [withdraw_variants_eq, withdraw_safe_insufficient c a t hg hlt]
    exact ⟨rfl, rfl, rfl, rfl⟩

/-- Witness for the amended C8: a wrapping-free deposit and a rejected
overdraft at the initial state. -/
theorem claim8_witness :
    lookupBal (deposit 3 4 initState).2.balances 3 =
      (lookupBal initState.balances 3 + 4) % W ∧
    (withdraw_safe 3 4 okTransfer initState).1 =
      .error .InsufficientBalance :=
  ⟨((claim8 initState 3 4 okTransfer (by decide)).1).2,
   (((claim8 initState 3 4 okTransfer (by decide)).2) (by decide)).1⟩

end Vault
